import Mathlib

/-!
Shallow embedding of the media-export pipeline of the ai-rehearsal-coach
repository (src/services/videoExportService.ts, src/services/geminiService.ts
audio utilities, and the RVC voice-conversion client), together with proofs
about the embedded definitions.

Times and durations are modelled as exact rationals (the JavaScript numbers
involved are compared with a 0.05 s tolerance; the tolerance literal is
modelled as 1/20).
-/

namespace RehearsalCoach

/-- Observed per-frame state of the two media elements consulted by
`renderFrame` in `exportComposedVideo` (videoExportService.ts, lines 264-302):
the effective audio element (`audioEl = useUnifiedAudio ? unifiedAudio : ttsAudio`)
and the optional video element. -/
structure FrameState where
  audioEnded : Bool
  audioTime : ℚ
  videoEnded : Bool
  videoTime : ℚ
deriving DecidableEq, Repr

/-- Default frame state used only as the `List.getD` fallback in theorem
statements; all indices accessed are in range. -/
def defaultFrame : FrameState := ⟨false, 0, false, 0⟩

/-- `audioDone` flag of `renderFrame` (videoExportService.ts line 277):
`audioEl.ended || audioEl.currentTime >= Math.max(0, audioDur - 0.05)`. -/
def audioDone (fs : FrameState) (audioDur : ℚ) : Bool :=
  fs.audioEnded || decide (fs.audioTime ≥ max 0 (audioDur - 1/20))

/-- `videoDone` flag of `renderFrame` (videoExportService.ts line 280):
`!hasVideo || !video || video.ended || video.currentTime >= Math.max(0, actualVideoDuration - 0.05)`.
In the source `hasVideo` and the presence of the `video` element coincide
(both set together at lines 107-128), so the two leading disjuncts collapse. -/
def videoDone (fs : FrameState) (hasVideo : Bool) (videoDur : ℚ) : Bool :=
  !hasVideo || fs.videoEnded || decide (fs.videoTime ≥ max 0 (videoDur - 1/20))

/-- Combined completion test of `renderFrame`: `audioDone && videoDone`. -/
def bothDone (hasVideo : Bool) (audioDur videoDur : ℚ) (fs : FrameState) : Bool :=
  audioDone fs audioDur && videoDone fs hasVideo videoDur

/-- The per-segment render loop (videoExportService.ts lines 264-302), viewed
over the sequence of frame states delivered by successive
`requestAnimationFrame` callbacks: it resolves at the first frame whose
combined completion test holds, returning that frame's index, and keeps
re-scheduling itself otherwise. -/
def renderLoop (hasVideo : Bool) (audioDur videoDur : ℚ) :
    List FrameState → Option ℕ
  | [] => none
  | fs :: rest =>
    if bothDone hasVideo audioDur videoDur fs then some 0
    else (renderLoop hasVideo audioDur videoDur rest).map (· + 1)

theorem renderLoop_cons_true {hasVideo : Bool} {aDur vDur : ℚ} {fs : FrameState}
    {rest : List FrameState} (h : bothDone hasVideo aDur vDur fs = true) :
    renderLoop hasVideo aDur vDur (fs :: rest) = some 0 := by
  simp [renderLoop, h]

theorem renderLoop_cons_false {hasVideo : Bool} {aDur vDur : ℚ} {fs : FrameState}
    {rest : List FrameState} (h : bothDone hasVideo aDur vDur fs = false) :
    renderLoop hasVideo aDur vDur (fs :: rest)
      = (renderLoop hasVideo aDur vDur rest).map (· + 1) := by
  simp [renderLoop, h]

/-- C1: the per-frame loop marks a segment complete (resolves) only at a frame
where both completion flags are true: `audioDone` is the effective audio
element's ended flag or its position reaching max(0, effectiveDuration - 0.05),
and `videoDone` is trivially true without a visual asset and otherwise the
video element's ended flag or its position reaching max(0, videoDuration - 0.05);
at every earlier frame at least one of the two flags is false, so the segment
is never advanced while either flag is false. -/
theorem c1_done_only_when_both_flags (hasVideo : Bool) (aDur vDur : ℚ)
    (frames : List FrameState) (n : ℕ)
    (h : renderLoop hasVideo aDur vDur frames = some n) :
    n < frames.length ∧
    (audioDone (frames.getD n defaultFrame) aDur = true ∧
      videoDone (frames.getD n defaultFrame) hasVideo vDur = true) ∧
    ∀ m, m < n →
      ¬(audioDone (frames.getD m defaultFrame) aDur = true ∧
        videoDone (frames.getD m defaultFrame) hasVideo vDur = true) := by
  induction frames generalizing n with
  | nil => simp [renderLoop] at h
  | cons fs rest ih =>
    by_cases hb : bothDone hasVideo aDur vDur fs = true
    · rw [renderLoop_cons_true hb] at h
      obtain rfl : n = 0 := by simpa using h.symm
      refine ⟨by simp, ?_, by omega⟩
      have := hb
      simp only [bothDone, Bool.and_eq_true] at this
      simpa [List.getD] using this
    · rw [renderLoop_cons_false (by simpa using hb)] at h
      obtain ⟨k, hk, rfl⟩ : ∃ k, renderLoop hasVideo aDur vDur rest = some k ∧ k + 1 = n := by
        simpa [Option.map_eq_some'] using h
      obtain ⟨hlen, hdone, hbefore⟩ := ih k hk
      refine ⟨by simpa using hlen, by simpa [List.getD] using hdone, ?_⟩
      intro m hm
      match m with
      | 0 =>
        intro hcontra
        exact hb (by simpa [bothDone, Bool.and_eq_true, List.getD] using hcontra)
      | j + 1 =>
        have hj : j < k := by omega
        simpa [List.getD] using hbefore j hj

/-- Witness for C1 at a concrete trace: the loop resolves at frame index 1,
frame 1 has both flags true, and frame 0 does not. -/
theorem c1_done_only_when_both_flags_witness :
    renderLoop true 1 2
        [⟨false, 0, false, 0⟩, ⟨true, 1, false, 2⟩] = some 1 ∧
    (1 < 2 ∧
      (audioDone ([⟨false, 0, false, 0⟩, ⟨true, 1, false, 2⟩].getD 1 defaultFrame) 1 = true ∧
        videoDone ([⟨false, 0, false, 0⟩, ⟨true, 1, false, 2⟩].getD 1 defaultFrame) true 2 = true) ∧
      ∀ m, m < 1 →
        ¬(audioDone ([(⟨false, 0, false, 0⟩ : FrameState), ⟨true, 1, false, 2⟩].getD m defaultFrame) 1 = true ∧
          videoDone ([⟨false, 0, false, 0⟩, ⟨true, 1, false, 2⟩].getD m defaultFrame) true 2 = true)) := by
  have hloop : renderLoop true 1 2
      [⟨false, 0, false, 0⟩, ⟨true, 1, false, 2⟩] = some 1 := by
    norm_num [renderLoop, bothDone, audioDone, videoDone]
  exact ⟨hloop, c1_done_only_when_both_flags true 1 2 _ 1 hloop⟩

/-- C9: with a zero effective audio duration the tolerance threshold clamps to
max(0, 0 - 0.05) = 0, so a non-negative playback position makes `audioDone`
true at the very first frame; with no visual asset `videoDone` is trivially
true, hence the loop resolves immediately at frame 0. -/
theorem c9_zero_duration_completes_immediately (vDur : ℚ) (fs : FrameState)
    (rest : List FrameState) (h : 0 ≤ fs.audioTime) :
    renderLoop false 0 vDur (fs :: rest) = some 0 := by
  have ha : audioDone fs 0 = true := by
    have hmax : max (0 : ℚ) (0 - 1/20) = 0 := by norm_num
    simp [audioDone, hmax, h]
  have hv : videoDone fs false vDur = true := by simp [videoDone]
  exact renderLoop_cons_true (by simp [bothDone, ha, hv])

/-- Witness for C9 at a concrete frame state with position 0. -/
theorem c9_zero_duration_completes_immediately_witness :
    (0 : ℚ) ≤ (0 : ℚ) ∧
      renderLoop false 0 7 [⟨false, 0, false, 0⟩] = some 0 :=
  ⟨by norm_num, c9_zero_duration_completes_immediately 7 ⟨false, 0, false, 0⟩ [] (by norm_num)⟩

/-! ### Audio source selection and segment priming (videoExportService.ts lines 209-253) -/

/-- The three media elements that can be wired into the audio graph for a
segment: the RVC-normalized audio element, the video element's own audio
track, or the TTS audio element. -/
inductive AudioSel
  | unified
  | videoTrack
  | tts
deriving DecidableEq, Repr

/-- Per-segment media record built by the loading phase of
`exportComposedVideo` (lines 86-138) and optionally completed by the RVC pass
(lines 142-173). Element handles are abstracted away; only the data the
claims depend on is kept. `unifiedDuration.isSome` corresponds to the
`unifiedAudio` element being present (i.e. `useUnifiedAudio`). -/
structure SegMedia where
  ttsDuration : ℚ
  hasVideo : Bool
  videoDuration : Option ℚ
  unifiedDuration : Option ℚ
deriving DecidableEq, Repr

/-- `useUnifiedAudio = !!unifiedAudio` (line 215). -/
def useUnifiedAudio (m : SegMedia) : Bool := m.unifiedDuration.isSome

/-- Audio wiring and playback state right after a segment is primed:
which element is connected through `createMediaElementSource` into the
destination mix (lines 224-235) and which elements play, muted or not
(lines 237-253). -/
structure PrimedState where
  wired : AudioSel
  unifiedPlays : Bool
  videoPlays : Bool
  ttsPlays : Bool
  videoMuted : Bool
  ttsMuted : Bool
deriving DecidableEq, Repr

/-- Segment priming (lines 224-253): with unified audio it is wired and
played, and any video plays muted; else with a video the video's audio track
is wired and unmuted (line 228) while the TTS element plays muted (line 247);
else the TTS element is wired and plays unmuted. -/
def primeSegment (useUnified hasVideo : Bool) : PrimedState :=
  if useUnified then
    { wired := AudioSel.unified, unifiedPlays := true, videoPlays := hasVideo,
      ttsPlays := false, videoMuted := true, ttsMuted := false }
  else if hasVideo then
    { wired := AudioSel.videoTrack, unifiedPlays := false, videoPlays := true,
      ttsPlays := true, videoMuted := false, ttsMuted := true }
  else
    { wired := AudioSel.tts, unifiedPlays := false, videoPlays := false,
      ttsPlays := true, videoMuted := false, ttsMuted := false }

/-- The sources actually audible while the segment renders: the elements that
are playing and not muted (the unified audio element is never muted). -/
def audibleSources (p : PrimedState) : List AudioSel :=
  (if p.unifiedPlays then [AudioSel.unified] else []) ++
  (if p.videoPlays && !p.videoMuted then [AudioSel.videoTrack] else []) ++
  (if p.ttsPlays && !p.ttsMuted then [AudioSel.tts] else [])

/-- Modelled from the claim's words, for comparison with the code: the
effective audio is the normalized asset if normalization succeeded, else the
TTS asset. -/
def claimedEffectiveAudio (useUnified : Bool) : AudioSel :=
  if useUnified then AudioSel.unified else AudioSel.tts

/-- C2 counterexample: for a segment with a visual asset and no normalized
audio, the wired (and single audible) source is the video's own audio track,
not the TTS asset the claim prescribes. -/
theorem c2_counterexample :
    (primeSegment false true).wired = AudioSel.videoTrack ∧
    audibleSources (primeSegment false true) = [AudioSel.videoTrack] ∧
    claimedEffectiveAudio false = AudioSel.tts ∧
    (primeSegment false true).wired ≠ claimedEffectiveAudio false := by
  refine ⟨rfl, rfl, rfl, ?_⟩
  decide

/-- C2 amended: exactly one source is audible during a segment's rendering,
namely the wired one, and it is the normalized audio asset if normalization
succeeded for that segment, else the video's own audio track when the segment
has a visual asset, else the original TTS asset. -/
theorem c2_effective_audio_selection (useUnified hasVideo : Bool) :
    audibleSources (primeSegment useUnified hasVideo)
        = [(primeSegment useUnified hasVideo).wired] ∧
    (primeSegment useUnified hasVideo).wired
        = (if useUnified then AudioSel.unified
           else if hasVideo then AudioSel.videoTrack else AudioSel.tts) := by
  cases useUnified <;> cases hasVideo <;> exact ⟨rfl, rfl⟩

/-! ### Segment duration (videoExportService.ts lines 255-256) -/

/-- `effectiveDuration = unifiedDuration ?? ttsDuration` (line 214). -/
def effectiveDuration (m : SegMedia) : ℚ := m.unifiedDuration.getD m.ttsDuration

/-- Lines 255-256: `actualVideoDuration = videoDuration || 0` and
`segmentDuration = Math.max(effectiveDuration, actualVideoDuration)`. -/
def segmentDuration (m : SegMedia) : ℚ :=
  max (effectiveDuration m) (m.videoDuration.getD 0)

/-- C8: a segment with no visual asset (no resolved video duration) has
segment duration equal to its effective audio duration whenever that duration
is non-negative; a segment with a visual asset has segment duration
max(effective audio duration, video duration). -/
theorem c8_segment_duration (m : SegMedia) (hpos : 0 ≤ effectiveDuration m) :
    (m.videoDuration = none → segmentDuration m = effectiveDuration m) ∧
    (∀ v, m.videoDuration = some v →
      segmentDuration m = max (effectiveDuration m) v) := by
  constructor
  · intro hnone
    simp [segmentDuration, hnone, max_eq_left hpos]
  · intro v hv
    simp [segmentDuration, hv]

/-- Witness for C8 at a concrete no-video segment of effective duration 3. -/
theorem c8_segment_duration_witness :
    (0 : ℚ) ≤ effectiveDuration ⟨3, false, none, none⟩ ∧
    ((⟨3, false, none, none⟩ : SegMedia).videoDuration = none →
      segmentDuration ⟨3, false, none, none⟩ = effectiveDuration ⟨3, false, none, none⟩) ∧
    (∀ v, (⟨3, false, none, none⟩ : SegMedia).videoDuration = some v →
      segmentDuration ⟨3, false, none, none⟩ = max (effectiveDuration ⟨3, false, none, none⟩) v) :=
  ⟨by norm_num [effectiveDuration],
    c8_segment_duration ⟨3, false, none, none⟩ (by norm_num [effectiveDuration])⟩

/-! ### RVC voice-conversion client and the RVC pass
(rvcService.ts — src/unnamed/part_004 lines 480-533 — and
videoExportService.ts lines 140-173) -/

/-- Outcome of the `fetch` POST inside `convertAudioWithRvc`: `none` models a
transport failure (the fetch itself threw), `some r` an HTTP response with its
ok flag, status code and body bytes. -/
structure RvcHttpResponse where
  ok : Bool
  status : ℕ
  body : List ℕ
deriving DecidableEq, Repr

/-- `convertAudioWithRvc` (part_004 lines 480-504): throws on transport
failure, throws on a non-ok response, otherwise returns the response body
blob. -/
def convertAudioWithRvc (response : Option RvcHttpResponse) : Except String (List ℕ) :=
  match response with
  | none => Except.error "transport failure"
  | some r =>
    if r.ok then Except.ok r.body
    else Except.error ("RVC conversion failed, status " ++ toString r.status)

/-- The RVC pass of `exportComposedVideo` (lines 142-172): each segment's
source audio is converted in order and the converted audio is recorded on the
segment. `convert i` abstracts the whole per-segment step for segment `i`
(extraction, `convertAudioWithRvc`, metadata load), returning the unified
duration or the thrown error. Every step is awaited with no surrounding
try/catch, so a failure propagates and ends the pass. -/
def rvcPass (convert : ℕ → Except String ℚ) :
    ℕ → List SegMedia → Except String (List SegMedia)
  | _, [] => Except.ok []
  | i, m :: rest =>
    match convert i with
    | Except.error e => Except.error e
    | Except.ok d =>
      match rvcPass convert (i + 1) rest with
      | Except.error e => Except.error e
      | Except.ok tail => Except.ok ({ m with unifiedDuration := some d } :: tail)

/-- The phase of `exportComposedVideo` between asset loading and rendering
(lines 140-175): when RVC options are present the RVC pass runs; a pass error
propagates out of `exportComposedVideo` (there is no surrounding handler), so
an error result here models the export rejecting. -/
def exportAfterLoad (rvcEnabled : Bool) (convert : ℕ → Except String ℚ)
    (media : List SegMedia) : Except String (List SegMedia) :=
  if rvcEnabled then rvcPass convert 0 media else Except.ok media

theorem rvcPass_error_at (convert : ℕ → Except String ℚ) (segs : List SegMedia)
    (i K : ℕ) (e : String) (hK : K < segs.length)
    (hok : ∀ j, j < K → ∃ d, convert (i + j) = Except.ok d)
    (hfail : convert (i + K) = Except.error e) :
    rvcPass convert i segs = Except.error e := by
  induction segs generalizing i K with
  | nil => simp at hK
  | cons m rest ih =>
    match K with
    | 0 =>
      have : convert i = Except.error e := by simpa using hfail
      simp [rvcPass, this]
    | K' + 1 =>
      obtain ⟨d, hd⟩ := hok 0 (by omega)
      have hd' : convert i = Except.ok d := by simpa using hd
      have htail : rvcPass convert (i + 1) rest = Except.error e := by
        refine ih (i + 1) K' (by simpa using hK) ?_ ?_
        · intro j hj
          obtain ⟨d', hd''⟩ := hok (j + 1) (by omega)
          exact ⟨d', by rw [show i + 1 + j = i + (j + 1) by omega]; exact hd''⟩
        · rw [show i + 1 + K' = i + (K' + 1) by omega]; exact hfail
      simp [rvcPass, hd', htail]

/-- A conversion outcome map where segment 0's request came back non-ok with
status 500 and every later segment would succeed; the per-segment step maps a
successful conversion blob to its loaded duration and propagates the error of
`convertAudioWithRvc` unchanged. -/
def convFailAt0 : ℕ → Except String ℚ :=
  fun i =>
    if i = 0 then (convertAudioWithRvc (some ⟨false, 500, []⟩)).map (fun _ => 2)
    else Except.ok 2

/-- C3 counterexample: with normalization enabled and segment 0's conversion
request failing (non-ok response), the export aborts with the conversion
error instead of continuing: the post-load phase produces no media list at
all, so segment 1 is not processed and no output containing segment 0 with
its original audio exists. -/
theorem c3_counterexample :
    convertAudioWithRvc (some ⟨false, 500, []⟩)
        = Except.error "RVC conversion failed, status 500" ∧
    exportAfterLoad true convFailAt0
        [⟨3, false, none, none⟩, ⟨4, false, none, none⟩]
        = Except.error "RVC conversion failed, status 500" := by
  exact ⟨rfl, rfl⟩

/-- C3 amended: when voice normalization is enabled and the conversion step
for segment K fails (after segments before K succeeded), the error propagates
and the export rejects with it; segments K+1..N are not processed and no
output is produced. -/
theorem c3_rvc_failure_aborts_export (convert : ℕ → Except String ℚ)
    (media : List SegMedia) (K : ℕ) (e : String) (hK : K < media.length)
    (hok : ∀ j, j < K → ∃ d, convert j = Except.ok d)
    (hfail : convert K = Except.error e) :
    exportAfterLoad true convert media = Except.error e := by
  have := rvcPass_error_at convert media 0 K e hK
    (by intro j hj; simpa using hok j hj) (by simpa using hfail)
  simpa [exportAfterLoad] using this

/-- Witness for C3 (amended) with failure at segment K = 1 of 2. -/
theorem c3_rvc_failure_aborts_export_witness :
    (1 < 2) ∧
    exportAfterLoad true
        (fun i => if i = 0 then Except.ok (2 : ℚ) else Except.error "boom")
        [⟨3, false, none, none⟩, ⟨4, false, none, none⟩]
        = Except.error "boom" :=
  ⟨by omega,
    c3_rvc_failure_aborts_export
      (fun i => if i = 0 then Except.ok (2 : ℚ) else Except.error "boom")
      [⟨3, false, none, none⟩, ⟨4, false, none, none⟩] 1 "boom"
      (by simp)
      (by intro j hj; exact ⟨2, by simp [Nat.lt_one_iff.mp hj]⟩)
      (by simp)⟩

/-! ### Output container/codec negotiation (videoExportService.ts lines 404-433) -/

/-- The ordered MP4 candidate list probed first. -/
def mp4Types : List String :=
  ["video/mp4;codecs=avc1.42E01E,mp4a.40.2",
   "video/mp4;codecs=h264,aac",
   "video/mp4"]

/-- The ordered WebM candidate list probed second. -/
def webmTypes : List String :=
  ["video/webm;codecs=vp9,opus",
   "video/webm;codecs=vp8,opus",
   "video/webm;codecs=h264,opus",
   "video/webm"]

/-- `getSupportedMimeType` (lines 404-433), with `MediaRecorder.isTypeSupported`
abstracted as the probe `sup`: the first supported MP4 candidate, else the
first supported WebM candidate, else the string "video/webm" as a fallback
return value. The function is total; it never throws. -/
def getSupportedMimeType (sup : String → Bool) : String :=
  match mp4Types.find? sup with
  | some t => t
  | none =>
    match webmTypes.find? sup with
    | some t => t
    | none => "video/webm"

/-- C4 counterexample: when no candidate at all is supported, negotiation does
not reject; it returns the fallback string "video/webm" (itself unsupported
under the probe), and the export goes on to create the recorder with it. -/
theorem c4_counterexample :
    getSupportedMimeType (fun _ => false) = "video/webm" ∧
    (fun _ : String => false) "video/webm" = false :=
  ⟨rfl, rfl⟩

/-- C4 amended: negotiation returns the first supported candidate in
preference order (the MP4 candidates before the WebM candidates), and when no
candidate is supported it returns the fallback "video/webm" instead of
rejecting with an error. -/
theorem c4_mime_negotiation (sup : String → Bool) :
    getSupportedMimeType sup
      = ((mp4Types ++ webmTypes).find? sup).getD "video/webm" := by
  rw [getSupportedMimeType, List.find?_append]
  cases hm : mp4Types.find? sup <;> cases hw : webmTypes.find? sup <;>
    simp [Option.orElse, hm, hw]

/-! ### PCM/WAV encoding and decoding (geminiService.ts audio utilities,
lines 480-547) -/

/-- Little-endian bytes stored by `DataView.setUint16` (value modulo 2^16). -/
def u16le (v : ℕ) : List ℕ := [v % 256, v / 256 % 256]

/-- Little-endian bytes stored by `DataView.setUint32` (value modulo 2^32). -/
def u32le (v : ℕ) : List ℕ :=
  [v % 256, v / 256 % 256, v / 65536 % 256, v / 16777216 % 256]

/-- Little-endian bytes stored by `DataView.setInt16`: two's complement
modulo 2^16. -/
def i16le (v : ℤ) : List ℕ := u16le (v % 65536).toNat

/-- The `AudioBuffer` data the encoder reads: `length` (frame count),
`sampleRate`, and `getChannelData` for each of `numberOfChannels` channels.
Channel sample values are exact rationals (the Float32 samples arising in the
pipeline are dyadic rationals, and every arithmetic step of the encoder is
exact on them until the final truncation). -/
structure AudioBuffer where
  sampleRate : ℕ
  len : ℕ
  channels : List (List ℚ)
deriving DecidableEq, Repr

/-- `channels[i][pos]`, with 0 for out-of-range access (in-range everywhere
it is used on well-formed buffers). -/
def channelSample (b : AudioBuffer) (i pos : ℕ) : ℚ :=
  (b.channels.getD i []).getD pos 0

/-- Truncation toward zero: the `| 0` coercion of JavaScript. -/
def truncToZero (q : ℚ) : ℤ := if 0 ≤ q then ⌊q⌋ else ⌈q⌉

/-- The per-sample conversion of `audioBufferToWavArrayBuffer`:
`sample = Math.max(-1, Math.min(1, channels[i][pos]))` followed by
`(0.5 + sample < 0 ? sample * 32768 : sample * 32767) | 0`. -/
def sampleToInt16 (q : ℚ) : ℤ :=
  let s := max (-1) (min 1 q)
  if 1/2 + s < 0 then truncToZero (s * 32768) else truncToZero (s * 32767)

/-- One interleaved frame: the inner `for (i = 0; i < numOfChan; i++)` loop,
writing each channel's converted sample as two little-endian bytes. -/
def frameBytes (b : AudioBuffer) (pos : ℕ) : List ℕ :=
  (List.range b.channels.length).flatMap fun i => i16le (sampleToInt16 (channelSample b i pos))

/-- The 44 header bytes written by `audioBufferToWavArrayBuffer` in order:
"RIFF", total length minus 8, "WAVE", "fmt ", sub-block size 16, format 1
(linear PCM), channel count, sample rate, byte rate, block alignment,
bits-per-sample 16, "data", and `length - pos - 4` with `pos = 40`, i.e.
total length minus 44. -/
def headerBytes (b : AudioBuffer) : List ℕ :=
  u32le 0x46464952 ++ u32le (b.len * b.channels.length * 2 + 44 - 8) ++
  u32le 0x45564157 ++ u32le 0x20746d66 ++ u32le 16 ++ u16le 1 ++
  u16le b.channels.length ++ u32le b.sampleRate ++
  u32le (b.sampleRate * 2 * b.channels.length) ++
  u16le (b.channels.length * 2) ++ u16le 16 ++ u32le 0x61746164 ++
  u32le (b.len * b.channels.length * 2 + 44 - 44)

/-- The sample loop of `audioBufferToWavArrayBuffer`:
`while (pos < buffer.length)` with the byte cursor `pos`, left at 44 by the
header writes, reused as the frame index (`channels[i][pos]`) — so the frames
visited are 44, 45, ..., buffer.length - 1, modelled by this range. -/
def sampleLoopBytes (b : AudioBuffer) : List ℕ :=
  (List.range' 44 (b.len - 44)).flatMap (frameBytes b)

/-- `audioBufferToWavArrayBuffer` (geminiService.ts lines 500-547): an
ArrayBuffer of `length = buffer.length * numOfChan * 2 + 44` bytes is created
zero-filled; the header is written at bytes 0-43 and the sample loop writes
contiguously from byte 44 upward (`view.setInt16(44 + offset, ...)` with
`offset` advancing by 2 per sample), so the result is the written prefix
padded with the remaining zero bytes. -/
def audioBufferToWavArrayBuffer (b : AudioBuffer) : List ℕ :=
  let written := headerBytes b ++ sampleLoopBytes b
  written ++ List.replicate (b.len * b.channels.length * 2 + 44 - written.length) 0

/-- `decodeAudioData` (audio utilities, lines 480-497): the raw bytes are
reinterpreted as 16-bit samples (received here directly as the integer
sample list), de-interleaved into `numChannels` channels of
`frameCount = length / numChannels` frames, each sample scaled by 1/32768. -/
def decodeAudioData (data16 : List ℤ) (numChannels sampleRate : ℕ) : AudioBuffer :=
  let frameCount := data16.length / numChannels
  { sampleRate := sampleRate
    len := frameCount
    channels := (List.range numChannels).map fun c =>
      (List.range frameCount).map fun i =>
        ((data16.getD (i * numChannels + c) 0 : ℤ) : ℚ) / 32768 }

/-- A signed 16-bit value from two little-endian bytes. -/
def int16FromLE (lo hi : ℕ) : ℤ :=
  let v := lo % 256 + 256 * (hi % 256)
  if v < 32768 then (v : ℤ) else (v : ℤ) - 65536

/-- Modelled from the spec: the claim's "standard WAV decoder" reading of the
data sub-block — consecutive little-endian signed 16-bit samples. -/
def decodeWavPayload : List ℕ → List ℤ
  | lo :: hi :: rest => int16FromLE lo hi :: decodeWavPayload rest
  | _ => []

/-- The round trip of claim C5 on mono 16-bit samples: raw PCM samples →
`decodeAudioData` → `audioBufferToWavArrayBuffer` → data sub-block (bytes
after the 44-byte header) read back by a standard decoder. -/
def wavRoundTrip (samples : List ℤ) (rate : ℕ) : List ℤ :=
  decodeWavPayload ((audioBufferToWavArrayBuffer (decodeAudioData samples 1 rate)).drop 44)

/-- C5: evaluating the code at the failing input: the mono sample buffer
[32767] round-trips to [0], not [32767] — the sample loop reuses the header
byte cursor (44) as its starting frame index, so it writes no sample at all
for buffers of at most 44 frames (and drops the first 44 frames of longer
buffers, shifting the rest), leaving zero bytes in the data sub-block. -/
theorem c5_wav_roundtrip_not_lossless :
    wavRoundTrip [32767] 24000 = [0] ∧ ([0] : List ℤ) ≠ [32767] := by
  constructor
  · rfl
  · decide

/-- Modelled from the claim's words, for comparison with the code: the data
sub-block payload as claimed — the interleaved 16-bit conversions of all
frames 0 .. len-1. -/
def claimedInterleavedPayload (b : AudioBuffer) : List ℕ :=
  (List.range b.len).flatMap (frameBytes b)

/-- C6: evaluating the code at the failing input: for the mono one-frame
buffer holding 32767/32768, the produced bytes are exactly the claimed
44-byte header (RIFF / length-8 / WAVE / 16-byte fmt block with format 1,
1 channel, rate 24000, byte rate 48000, block align 2, 16 bits / data /
size 2) — but the data payload is [0, 0] instead of the interleaved sample
bytes [254, 127], because the sample loop starts at frame index 44. -/
theorem c6_wav_payload_not_interleaved_samples :
    audioBufferToWavArrayBuffer ⟨24000, 1, [[(32767 : ℚ)/32768]]⟩
      = [82, 73, 70, 70, 38, 0, 0, 0, 87, 65, 86, 69, 102, 109, 116, 32,
         16, 0, 0, 0, 1, 0, 1, 0, 192, 93, 0, 0, 128, 187, 0, 0, 2, 0, 16, 0,
         100, 97, 116, 97, 2, 0, 0, 0] ++ [0, 0] ∧
    headerBytes ⟨24000, 1, [[(32767 : ℚ)/32768]]⟩
      = [82, 73, 70, 70, 38, 0, 0, 0, 87, 65, 86, 69, 102, 109, 116, 32,
         16, 0, 0, 0, 1, 0, 1, 0, 192, 93, 0, 0, 128, 187, 0, 0, 2, 0, 16, 0,
         100, 97, 116, 97, 2, 0, 0, 0] ∧
    claimedInterleavedPayload ⟨24000, 1, [[(32767 : ℚ)/32768]]⟩ = [254, 127] ∧
    ([0, 0] : List ℕ) ≠ [254, 127] := by
  refine ⟨rfl, rfl, ?_, by decide⟩
  have hr : List.range 1 = [0] := rfl
  norm_num [claimedInterleavedPayload, frameBytes, channelSample, sampleToInt16,
    truncToZero, i16le, u16le, hr]
  decide

/-! ### Audio-track extraction (geminiService.ts lines 571-626) -/

/-- The observable steps of `extractAudioBlobFromVideo`: the fast-path
attempt (fetch the source bytes and decode them directly), wiring an element
of a given id through `createMediaElementSource`, and the real-time
record-playback of an element. -/
inductive ExtractStep
  | fetchDecode
  | wireElement (id : ℕ)
  | recordRealtime (id : ℕ)
deriving DecidableEq, Repr

/-- `extractAudioBlobFromVideo` (lines 571-626) as its step trace: the fast
path runs first inside a try block; when it succeeds the function returns and
nothing is wired. Only when it throws does the slow path run: a brand-new
video element is created by `document.createElement` (a fresh handle,
modelled as the fresh id `videoId + 1`), and that clone — never the original
element passed in — is wired into the audio graph and played while recording.
`fastOk` abstracts whether the fast path's try block succeeded. -/
def extractAudioSteps (videoId : ℕ) (fastOk : Bool) : List ExtractStep :=
  if fastOk then [ExtractStep.fetchDecode]
  else [ExtractStep.fetchDecode,
        ExtractStep.wireElement (videoId + 1),
        ExtractStep.recordRealtime (videoId + 1)]

/-- C7: the extractor always attempts the fast path first; when the fast path
succeeds no element is wired at all; and any element that is wired belongs to
a run whose fast path failed and is never the original video element. -/
theorem c7_extractor_wires_only_clone (videoId : ℕ) (fastOk : Bool) :
    (extractAudioSteps videoId fastOk).head? = some ExtractStep.fetchDecode ∧
    (fastOk = true →
      ∀ id, ExtractStep.wireElement id ∉ extractAudioSteps videoId fastOk) ∧
    (∀ id, ExtractStep.wireElement id ∈ extractAudioSteps videoId fastOk →
      fastOk = false ∧ id ≠ videoId) := by
  cases fastOk with
  | true =>
    refine ⟨rfl, ?_, ?_⟩
    · intro _ id
      simp [extractAudioSteps]
    · intro id hmem
      simp [extractAudioSteps] at hmem
  | false =>
    refine ⟨rfl, ?_, ?_⟩
    · intro h
      cases h
    · intro id hmem
      simp [extractAudioSteps] at hmem
      exact ⟨rfl, by omega⟩

/-- Witness for C7 at a concrete failed-fast-path run. -/
theorem c7_extractor_wires_only_clone_witness :
    (extractAudioSteps 5 false).head? = some ExtractStep.fetchDecode ∧
    (false = true → ∀ id, ExtractStep.wireElement id ∉ extractAudioSteps 5 false) ∧
    (∀ id, ExtractStep.wireElement id ∈ extractAudioSteps 5 false →
      false = false ∧ id ≠ 5) :=
  c7_extractor_wires_only_clone 5 false

/-! ### Progress notifications (videoExportService.ts lines 6-11, 67, 83,
91-96, 145-150, 175, 217-222, 305, 329) -/

/-- The discrete stage tags of `ExportProgress` (lines 6-11). -/
inductive Stage
  | preparing
  | loading
  | rvc
  | rendering
  | encoding
  | complete
deriving DecidableEq, Repr

/-- The rendering-phase base progress (lines 175 and 219): 40 when the RVC
pass ran, 25 otherwise. -/
def renderBase (rvc : Bool) : ℚ := if rvc then 40 else 25

/-- One linearly interpolated block of per-segment progress values:
`base + (i / n) * span` for `i = 0 .. n-1`, as emitted inside the loading,
RVC and rendering loops. -/
def ramp (base span : ℚ) (n : ℕ) : List ℚ :=
  (List.range n).map fun i : ℕ => base + ((i : ℚ) / (n : ℚ)) * span

/-- Every notification `onProgress` receives during one completed run of
`exportComposedVideo` with `n` ready segments, in emission order:
preparing 0 (line 67); loading 5 (line 83); per-segment loading progress
5 + (i/n)·20 (lines 91-96); when RVC is enabled, per-segment rvc progress
25 + (i/n)·15 (lines 145-150); the rendering base (line 175); per-segment
rendering progress base + (i/n)·45 (lines 217-222); encoding 85 (line 305);
complete 100 (line 329). -/
def progressTrace (n : ℕ) (rvc : Bool) : List (Stage × ℚ) :=
  [(Stage.preparing, 0), (Stage.loading, 5)] ++
  (ramp 5 20 n).map (fun q => (Stage.loading, q)) ++
  (if rvc then (ramp 25 15 n).map (fun q => (Stage.rvc, q)) else []) ++
  [(Stage.rendering, renderBase rvc)] ++
  (ramp (renderBase rvc) 45 n).map (fun q => (Stage.rendering, q)) ++
  [(Stage.encoding, 85), (Stage.complete, 100)]

theorem mem_of_getLast?_mem {α : Type} {l : List α} {x : α}
    (h : x ∈ l.getLast?) : x ∈ l := by
  obtain ⟨hne, rfl⟩ := List.mem_getLast?_eq_getLast h
  exact List.getLast_mem hne

theorem chain'_le_append_pivot {l₁ l₂ : List (Stage × ℚ)} (c : ℚ)
    (h₁ : List.Chain' (fun p q : Stage × ℚ => p.2 ≤ q.2) l₁)
    (h₂ : List.Chain' (fun p q : Stage × ℚ => p.2 ≤ q.2) l₂)
    (hb₁ : ∀ p ∈ l₁, p.2 ≤ c) (hb₂ : ∀ p ∈ l₂, c ≤ p.2) :
    List.Chain' (fun p q : Stage × ℚ => p.2 ≤ q.2) (l₁ ++ l₂) := by
  refine h₁.append h₂ ?_
  intro x hx y hy
  exact le_trans (hb₁ x (mem_of_getLast?_mem hx)) (hb₂ y (List.mem_of_mem_head? hy))

theorem ramp_chain (base span : ℚ) (hspan : 0 ≤ span) (n : ℕ) :
    List.Chain' (· ≤ ·) (ramp base span n) := by
  rw [ramp, List.chain'_map]
  cases n with
  | zero => simp
  | succ m =>
    rw [List.chain'_range_succ]
    intro i _
    have hpos : (0 : ℚ) < ((m + 1 : ℕ) : ℚ) := by positivity
    have hdiv : ((i : ℕ) : ℚ) / ((m + 1 : ℕ) : ℚ)
        ≤ (((i + 1 : ℕ)) : ℚ) / ((m + 1 : ℕ) : ℚ) := by
      rw [div_le_div_iff_of_pos_right hpos]
      exact_mod_cast Nat.le_succ i
    have := mul_le_mul_of_nonneg_right hdiv hspan
    push_cast at this ⊢
    linarith

theorem ramp_bounds (base span : ℚ) (hspan : 0 ≤ span) (n : ℕ) :
    ∀ q ∈ ramp base span n, base ≤ q ∧ q ≤ base + span := by
  intro q hq
  rw [ramp, List.mem_map] at hq
  obtain ⟨i, hi, rfl⟩ := hq
  rw [List.mem_range] at hi
  have hn : 0 < n := lt_of_le_of_lt (Nat.zero_le i) hi
  have hnq : (0 : ℚ) < (n : ℚ) := by exact_mod_cast hn
  have hfrac0 : 0 ≤ (i : ℚ) / (n : ℚ) := by positivity
  have hfrac1 : (i : ℚ) / (n : ℚ) ≤ 1 := by
    rw [div_le_one hnq]
    exact_mod_cast Nat.le_of_lt hi
  have h0 : 0 ≤ ((i : ℚ) / (n : ℚ)) * span := mul_nonneg hfrac0 hspan
  have h1 : ((i : ℚ) / (n : ℚ)) * span ≤ span := mul_le_of_le_one_left hspan hfrac1
  constructor <;> linarith

theorem mapped_ramp_chain (s : Stage) (base span : ℚ) (hspan : 0 ≤ span) (n : ℕ) :
    List.Chain' (fun p q : Stage × ℚ => p.2 ≤ q.2)
      ((ramp base span n).map (fun q => (s, q))) := by
  rw [List.chain'_map]
  exact ramp_chain base span hspan n

theorem mapped_ramp_bounds (s : Stage) (base span : ℚ) (hspan : 0 ≤ span) (n : ℕ) :
    ∀ p ∈ (ramp base span n).map (fun q => (s, q)), base ≤ p.2 ∧ p.2 ≤ base + span := by
  intro p hp
  rw [List.mem_map] at hp
  obtain ⟨q, hq, rfl⟩ := hp
  exact ramp_bounds base span hspan n q hq

theorem renderBase_bounds (rvc : Bool) : 25 ≤ renderBase rvc ∧ renderBase rvc ≤ 40 := by
  cases rvc <;> norm_num [renderBase]

/-- C10: over one completed export run, every emitted progress value lies in
[0, 100], the sequence of emitted values is non-decreasing, the first
notification is stage preparing with value 0 and the last is stage complete
with value exactly 100. -/
theorem c10_progress_monotone (n : ℕ) (rvc : Bool) :
    (progressTrace n rvc).head? = some (Stage.preparing, 0) ∧
    (progressTrace n rvc).getLast? = some (Stage.complete, 100) ∧
    List.Chain' (fun p q : Stage × ℚ => p.2 ≤ q.2) (progressTrace n rvc) ∧
    ∀ p ∈ progressTrace n rvc, 0 ≤ p.2 ∧ p.2 ≤ 100 := by
  obtain ⟨hB1, hB2⟩ := renderBase_bounds rvc
  have h0 : ∀ p ∈ [(Stage.preparing, (0 : ℚ)), (Stage.loading, 5)],
      0 ≤ p.2 ∧ p.2 ≤ 5 := by
    intro p hp
    simp only [List.mem_cons, List.not_mem_nil, or_false] at hp
    rcases hp with rfl | rfl <;> norm_num
  have h1 := mapped_ramp_bounds Stage.loading 5 20 (by norm_num) n
  have h2 : ∀ p ∈ (if rvc then (ramp 25 15 n).map (fun q => (Stage.rvc, q)) else []),
      25 ≤ p.2 ∧ p.2 ≤ 40 := by
    cases rvc
    · intro p hp; simp at hp
    · intro p hp
      simp only [if_pos] at hp
      have := mapped_ramp_bounds Stage.rvc 25 15 (by norm_num) n p hp
      exact ⟨this.1, by linarith [this.2]⟩
  have h2B : ∀ p ∈ (if rvc then (ramp 25 15 n).map (fun q => (Stage.rvc, q)) else []),
      p.2 ≤ renderBase rvc := by
    cases rvc
    · intro p hp; simp at hp
    · intro p hp
      simp only [if_pos] at hp
      have := mapped_ramp_bounds Stage.rvc 25 15 (by norm_num) n p hp
      have hb : renderBase true = 40 := rfl
      rw [hb]
      linarith [this.2]
  have h3 : ∀ p ∈ [(Stage.rendering, renderBase rvc)],
      renderBase rvc ≤ p.2 ∧ p.2 ≤ renderBase rvc := by
    intro p hp
    rw [List.mem_singleton] at hp
    rw [hp]
    exact ⟨le_refl _, le_refl _⟩
  have h4 : ∀ p ∈ (ramp (renderBase rvc) 45 n).map (fun q => (Stage.rendering, q)),
      renderBase rvc ≤ p.2 ∧ p.2 ≤ 85 := by
    intro p hp
    have := mapped_ramp_bounds Stage.rendering (renderBase rvc) 45 (by norm_num) n p hp
    exact ⟨this.1, by linarith [this.2]⟩
  have h5 : ∀ p ∈ [(Stage.encoding, (85 : ℚ)), (Stage.complete, 100)],
      85 ≤ p.2 ∧ p.2 ≤ 100 := by
    intro p hp
    simp only [List.mem_cons, List.not_mem_nil, or_false] at hp
    rcases hp with rfl | rfl <;> norm_num
  -- the chain built block by block, left to right
  have chainX1 : List.Chain' (fun p q : Stage × ℚ => p.2 ≤ q.2)
      ([(Stage.preparing, (0 : ℚ)), (Stage.loading, 5)] ++
        (ramp 5 20 n).map (fun q => (Stage.loading, q))) := by
    refine chain'_le_append_pivot 5 (List.chain'_pair.mpr (by norm_num))
      (mapped_ramp_chain _ _ _ (by norm_num) n)
      (fun p hp => (h0 p hp).2) (fun p hp => (h1 p hp).1)
  have boundX1 : ∀ p ∈ [(Stage.preparing, (0 : ℚ)), (Stage.loading, 5)] ++
      (ramp 5 20 n).map (fun q => (Stage.loading, q)), p.2 ≤ 25 := by
    intro p hp
    rcases List.mem_append.mp hp with h | h
    · linarith [(h0 p h).2]
    · linarith [(h1 p h).2]
  have chainX2 : List.Chain' (fun p q : Stage × ℚ => p.2 ≤ q.2)
      ([(Stage.preparing, (0 : ℚ)), (Stage.loading, 5)] ++
        (ramp 5 20 n).map (fun q => (Stage.loading, q)) ++
        (if rvc then (ramp 25 15 n).map (fun q => (Stage.rvc, q)) else [])) := by
    refine chain'_le_append_pivot 25 chainX1 ?_ boundX1 (fun p hp => (h2 p hp).1)
    cases rvc
    · simp
    · exact mapped_ramp_chain _ _ _ (by norm_num) n
  have boundX2 : ∀ p ∈ [(Stage.preparing, (0 : ℚ)), (Stage.loading, 5)] ++
      (ramp 5 20 n).map (fun q => (Stage.loading, q)) ++
      (if rvc then (ramp 25 15 n).map (fun q => (Stage.rvc, q)) else []),
      p.2 ≤ renderBase rvc := by
    intro p hp
    rcases List.mem_append.mp hp with h | h
    · exact le_trans (boundX1 p h) hB1
    · exact h2B p h
  have chainX3 : List.Chain' (fun p q : Stage × ℚ => p.2 ≤ q.2)
      ([(Stage.preparing, (0 : ℚ)), (Stage.loading, 5)] ++
        (ramp 5 20 n).map (fun q => (Stage.loading, q)) ++
        (if rvc then (ramp 25 15 n).map (fun q => (Stage.rvc, q)) else []) ++
        [(Stage.rendering, renderBase rvc)]) := by
    exact chain'_le_append_pivot (renderBase rvc) chainX2 (List.chain'_singleton _)
      boundX2 (fun p hp => (h3 p hp).1)
  have boundX3 : ∀ p ∈ [(Stage.preparing, (0 : ℚ)), (Stage.loading, 5)] ++
      (ramp 5 20 n).map (fun q => (Stage.loading, q)) ++
      (if rvc then (ramp 25 15 n).map (fun q => (Stage.rvc, q)) else []) ++
      [(Stage.rendering, renderBase rvc)], p.2 ≤ renderBase rvc := by
    intro p hp
    rcases List.mem_append.mp hp with h | h
    · exact boundX2 p h
    · exact (h3 p h).2
  have chainX4 : List.Chain' (fun p q : Stage × ℚ => p.2 ≤ q.2)
      ([(Stage.preparing, (0 : ℚ)), (Stage.loading, 5)] ++
        (ramp 5 20 n).map (fun q => (Stage.loading, q)) ++
        (if rvc then (ramp 25 15 n).map (fun q => (Stage.rvc, q)) else []) ++
        [(Stage.rendering, renderBase rvc)] ++
        (ramp (renderBase rvc) 45 n).map (fun q => (Stage.rendering, q))) := by
    exact chain'_le_append_pivot (renderBase rvc) chainX3
      (mapped_ramp_chain _ _ _ (by norm_num) n)
      boundX3 (fun p hp => (h4 p hp).1)
  have boundX4 : ∀ p ∈ [(Stage.preparing, (0 : ℚ)), (Stage.loading, 5)] ++
      (ramp 5 20 n).map (fun q => (Stage.loading, q)) ++
      (if rvc then (ramp 25 15 n).map (fun q => (Stage.rvc, q)) else []) ++
      [(Stage.rendering, renderBase rvc)] ++
      (ramp (renderBase rvc) 45 n).map (fun q => (Stage.rendering, q)), p.2 ≤ 85 := by
    intro p hp
    rcases List.mem_append.mp hp with h | h
    · linarith [boundX3 p h, hB2]
    · exact (h4 p h).2
  refine ⟨rfl, ?_, ?_, ?_⟩
  · rw [progressTrace, List.getLast?_append_of_ne_nil _ (by simp)]
    rfl
  · rw [progressTrace]
    exact chain'_le_append_pivot 85 chainX4 (List.chain'_pair.mpr (by norm_num))
      boundX4 (fun p hp => (h5 p hp).1)
  · intro p hp
    simp only [progressTrace, List.mem_append] at hp
    rcases hp with ((((ha | hb) | hc) | hd) | he) | hf
    · have := h0 p ha; exact ⟨this.1, by linarith [this.2]⟩
    · have := h1 p hb; exact ⟨by linarith [this.1], by linarith [this.2]⟩
    · have := h2 p hc; exact ⟨by linarith [this.1], by linarith [this.2]⟩
    · have := h3 p hd; exact ⟨by linarith [(h3 p hd).1, hB1], by linarith [(h3 p hd).2, hB2]⟩
    · have := h4 p he
      exact ⟨le_trans (le_trans (by norm_num) hB1) this.1, by linarith [this.2]⟩
    · have := h5 p hf; exact ⟨by linarith [this.1], this.2⟩

/-- Witness for C10 at a concrete export run of two segments with RVC. -/
theorem c10_progress_monotone_witness :
    (progressTrace 2 true).head? = some (Stage.preparing, 0) ∧
    (progressTrace 2 true).getLast? = some (Stage.complete, 100) ∧
    List.Chain' (fun p q : Stage × ℚ => p.2 ≤ q.2) (progressTrace 2 true) ∧
    ∀ p ∈ progressTrace 2 true, 0 ≤ p.2 ∧ p.2 ≤ 100 :=
  c10_progress_monotone 2 true

end RehearsalCoach
